import Mathlib

/-!
Verification development for the vanilla-extract Vite plugin
(`packages/vite-plugin/src/index.ts`).

The plugin's state and hooks are shallowly embedded: JavaScript strings are
lists of characters, the process-wide `cssMap : Map<string, string>` is an
association list with the `has`/`get`/`set` contract of a JS `Map`, and the
external collaborators from `@vanilla-extract/integration` (`compile`,
`processVanillaFile`, `addFileScope`, `cssFileFilter`, the file-scope codec)
are parameters: the compiler's output for a transformed file is passed in as
the list of files to watch together with the list of
`(stringifyFileScope fileScope, source)` pairs for which `processVanillaFile`
invokes the `serializeVirtualCssPath` callback, and `cssFileFilter.test` is an
arbitrary predicate.
-/

namespace VanillaExtract

/-- Characters of a JavaScript string. -/
abbrev Str := List Char

/-- First index at which `pat` occurs as a contiguous substring of `s`
(the occurrence JavaScript `String.prototype.indexOf` reports), as an
`Option Nat`. -/
def firstOcc (pat : Str) : Str → Option Nat
  | [] => if pat.isPrefixOf ([] : Str) then some 0 else none
  | c :: rest =>
    if pat.isPrefixOf (c :: rest) then some 0
    else (firstOcc pat rest).map (· + 1)

/-- JavaScript `s.indexOf(pat)`: the first occurrence index, or `-1`. -/
def jsIndexOf (s pat : Str) : Int :=
  match firstOcc pat s with
  | some n => (n : Int)
  | none => -1

/-- Normalisation of one JavaScript `slice` index against the string length:
a negative index counts back from the end (clamped at 0), a non-negative one
is clamped at the length. -/
def jsNormIdx (len : Nat) (i : Int) : Nat :=
  if i < 0 then ((len : Int) + i).toNat else min i.toNat len

/-- JavaScript `s.slice(start, stop)` over character lists: the characters
from the normalised `start` (inclusive) to the normalised `stop` (exclusive). -/
def jsSlice (s : Str) (start stop : Int) : Str :=
  (s.take (jsNormIdx s.length stop)).drop (jsNormIdx s.length start)

/-- Source constant `styleUpdateEvent`: the HMR channel name for a scope. -/
def styleUpdateEvent (fileId : Str) : Str :=
  "vanilla-extract-style-update:".data ++ fileId

/-- Source constant `virtualPrefix`: the reserved virtual-module prefix. -/
def virtualPrefix : Str := "virtual:vanilla-extract:".data

/-- The resolved Vite command (`config.command`). -/
inductive Command where
  | serve
  | build
  deriving DecidableEq

/-- Source variable `virtualExt`, assigned once in `configResolved`:
`` `.vanilla.${config.command === 'serve' ? 'js' : 'css'}` ``. -/
def virtualExt (cmd : Command) : Str :=
  ".vanilla.".data ++ (if cmd = .serve then "js".data else "css".data)

/-- The process-wide CSS registry `cssMap`, modelled as an association list
carrying the `has`/`get`/`set` contract of a JavaScript `Map`. -/
abbrev CssMap := List (Str × Str)

/-- JavaScript `Map.prototype.has`. -/
def hasKey : CssMap → Str → Bool
  | [], _ => false
  | p :: rest, k => p.1 == k || hasKey rest k

/-- JavaScript `Map.prototype.get` (`undefined` is `none`). -/
def getKey : CssMap → Str → Option Str
  | [], _ => none
  | p :: rest, k => if p.1 == k then some p.2 else getKey rest k

/-- JavaScript `Map.prototype.set`: overwrite the binding for the key if one
is present, append it otherwise. -/
def setKey : CssMap → Str → Str → CssMap
  | [], k, v => [(k, v)]
  | p :: rest, k, v =>
    if p.1 == k then (k, v) :: setKey rest k v else p :: setKey rest k v

/-- The plugin-instance state fixed by the lifecycle hooks: whether
`configureServer` attached a dev server, the resolved command, the ids the
dev server's module graph currently caches (`moduleGraph.getModuleById`),
and the external `cssFileFilter.test` predicate. -/
structure PluginEnv where
  server : Bool
  command : Command
  moduleGraph : List Str
  cssFileFilterTest : Str → Bool

/-- Plugin hook `resolveId`: claim ownership of an id exactly when
`id.indexOf(virtualPrefix) === 0`, decline (`undefined`) otherwise. -/
def resolveId (id : Str) : Option Str :=
  if jsIndexOf id virtualPrefix == 0 then some id else none

/-- The `fileScopeId` extraction in `load`:
`id.slice(virtualPrefix.length, id.indexOf(virtualExt))`. -/
def extractFileScopeId (cmd : Command) (id : Str) : Str :=
  jsSlice id (( virtualPrefix).length : Int) (jsIndexOf id (virtualExt cmd))

/-- Shape of the dev-mode module text `load` returns: the template imports
`injectStyles`, defines `inject` over the scope decoded from `fileScopeId`,
applies `inject` once immediately, and registers `import.meta.hot.on`
handlers each of which re-invokes `inject` on the received CSS payload. -/
structure DevShim where
  fileScopeId : Str
  immediateInjects : List Str
  hotUpdateSubscriptions : List Str
  deriving DecidableEq

/-- Result of the `load` hook. -/
inductive LoadResult where
  | nullResult
  | thrown (msg : Str)
  | cssText (css : Str)
  | jsModule (shim : DevShim)
  deriving DecidableEq

/-- Plugin hook `load`: for an owned id, look the extracted scope id up in
the registry; throw when it is absent; return the raw CSS text when no dev
server is attached, and the injection shim when one is. -/
def loadHook (env : PluginEnv) (m : CssMap) (id : Str) : LoadResult :=
  if jsIndexOf id virtualPrefix == 0 then
    let fileScopeId := extractFileScopeId env.command id
    if !hasKey m fileScopeId then
      .thrown ("Unable to locate ".data ++ fileScopeId ++ " in the CSS map.".data)
    else
      let css := (getKey m fileScopeId).getD []
      if !env.server then
        .cssText css
      else
        .jsModule
          { fileScopeId := fileScopeId
            immediateInjects := [css]
            hotUpdateSubscriptions := [styleUpdateEvent fileScopeId] }
  else
    .nullResult

/-- The virtual module identifier emitted for a scope:
`` `${virtualPrefix}${fileId}${virtualExt}` ``. -/
def mkVirtualId (cmd : Command) (fileId : Str) : Str :=
  virtualPrefix ++ fileId ++ virtualExt cmd

/-- The replacement import statement the callback returns:
`` `import "${id}";` ``. -/
def importStatementFor (id : Str) : Str :=
  "import \"".data ++ id ++ "\";".data

/-- Output of one `serializeVirtualCssPath` invocation: the registry after
`cssMap.set`, the module ids invalidated, the `(event, data)` pairs sent over
`server.ws`, and the returned import statement. -/
structure SerializeOut where
  cssMap : CssMap
  invalidations : List Str
  broadcasts : List (Str × Str)
  importStmt : Str
  deriving DecidableEq

/-- The `serializeVirtualCssPath` callback the transform hook hands to
`processVanillaFile`: for one extracted CSS fragment, invalidate and
broadcast when a dev server is attached and the registry holds a different
CSS text for the scope (invalidating only when the module graph caches the
virtual id), then unconditionally overwrite the registry entry. -/
def serializeVirtualCssPath (env : PluginEnv) (m : CssMap) (fileId source : Str) :
    SerializeOut :=
  let id := mkVirtualId env.command fileId
  let fire := env.server && hasKey m fileId && !(getKey m fileId == some source)
  { cssMap := setKey m fileId source
    invalidations := if fire && env.moduleGraph.contains id then [id] else []
    broadcasts := if fire then [(styleUpdateEvent fileId, source)] else []
    importStmt := importStatementFor id }

/-- Accumulated output of `processVanillaFile` invoking the callback once per
extracted CSS fragment, in order. -/
structure SerializeAllOut where
  cssMap : CssMap
  invalidations : List Str
  broadcasts : List (Str × Str)
  importStmts : List Str
  deriving DecidableEq

/-- Iteration of `serializeVirtualCssPath` over the fragments, threading the
registry through. -/
def runSerializeAll (env : PluginEnv) (m : CssMap) :
    List (Str × Str) → SerializeAllOut
  | [] => ⟨m, [], [], []⟩
  | (fileId, source) :: rest =>
    let out := serializeVirtualCssPath env m fileId source
    let tail := runSerializeAll env out.cssMap rest
    ⟨tail.cssMap, out.invalidations ++ tail.invalidations,
      out.broadcasts ++ tail.broadcasts, out.importStmt :: tail.importStmts⟩

/-- Result value of the `transform` hook: `null` for non-style files, the
`addFileScope` output for a server-rendering pass (tagged with the `validId`
it was invoked on), or the finalized JS for a client pass (tagged with the
compiled `validId` and the import statements the callback produced). -/
inductive TransformResult where
  | nullResult
  | ssrTagged (filePath : Str)
  | finalized (filePath : Str) (importStmts : List Str)
  deriving DecidableEq

/-- Observable outcome of one `transform` invocation: the hook's return
value, the registry afterwards, the `this.addWatchFile` registrations, and
the HMR side effects. -/
structure TransformOut where
  result : TransformResult
  cssMap : CssMap
  watched : List Str
  invalidations : List Str
  broadcasts : List (Str × Str)
  deriving DecidableEq

/-- Plugin hook `transform`. The external compiler's output for the file is
passed in: `watchFiles` is `compile(...).watchFiles` and `fragments` the
`(stringifyFileScope fileScope, source)` pairs `processVanillaFile` hands to
the callback. Non-style ids return `null` untouched; a server-rendering pass
returns the `addFileScope` output; a client pass registers watch files
(skipping the file itself unless the command is `build`) and finalizes. -/
def transformHook (env : PluginEnv) (m : CssMap) (id : Str) (ssr : Bool)
    (watchFiles : List Str) (fragments : List (Str × Str)) : TransformOut :=
  if !env.cssFileFilterTest id then
    { result := .nullResult, cssMap := m, watched := [],
      invalidations := [], broadcasts := [] }
  else
    let qIndex := jsIndexOf id ("?".data)
    let validId := if qIndex == -1 then id else jsSlice id 0 qIndex
    if ssr then
      { result := .ssrTagged validId, cssMap := m, watched := [],
        invalidations := [], broadcasts := [] }
    else
      let watched := watchFiles.filter (fun file => env.command == .build || file != id)
      let allOut := runSerializeAll env m fragments
      { result := .finalized validId allOut.importStmts
        cssMap := allOut.cssMap
        watched := watched
        invalidations := allOut.invalidations
        broadcasts := allOut.broadcasts }

/-! ## Helper lemmas -/

theorem firstOcc_eq_zero_iff (pat s : Str) :
    firstOcc pat s = some 0 ↔ pat.isPrefixOf s = true := by
  cases s with
  | nil =>
    by_cases h : pat.isPrefixOf ([] : Str) = true <;> simp [firstOcc, h]
  | cons c rest =>
    by_cases h : pat.isPrefixOf (c :: rest) = true <;> simp [firstOcc, h]

theorem jsIndexOf_eq_zero_iff (s pat : Str) :
    jsIndexOf s pat = 0 ↔ pat.isPrefixOf s = true := by
  rw [← firstOcc_eq_zero_iff]
  unfold jsIndexOf
  cases h : firstOcc pat s with
  | none => simp
  | some n => simp [Int.natCast_eq_zero]

theorem isPrefixOf_append_self (l r : Str) : l.isPrefixOf (l ++ r) = true := by
  induction l with
  | nil => simp [List.isPrefixOf]
  | cons c cs ih => simp [List.isPrefixOf, ih]

theorem resolveId_eq (id : Str) :
    resolveId id = if virtualPrefix.isPrefixOf id then some id else none := by
  unfold resolveId
  by_cases h : virtualPrefix.isPrefixOf id = true
  · simp [h, beq_iff_eq, (jsIndexOf_eq_zero_iff id virtualPrefix).mpr h]
  · have h2 : jsIndexOf id virtualPrefix ≠ 0 := fun hz =>
      h ((jsIndexOf_eq_zero_iff id virtualPrefix).mp hz)
    simp only [Bool.not_eq_true] at h
    simp [h, beq_eq_false_iff_ne.mpr h2]

theorem resolveId_guard_of_owned (id : Str) (hown : resolveId id = some id) :
    (jsIndexOf id virtualPrefix == 0) = true := by
  by_cases h : (jsIndexOf id virtualPrefix == 0) = true
  · exact h
  · unfold resolveId at hown
    simp only [Bool.not_eq_true] at h
    simp [h] at hown

theorem hasKey_of_getKey (m : CssMap) (k v : Str) (h : getKey m k = some v) :
    hasKey m k = true := by
  induction m with
  | nil => simp [getKey] at h
  | cons p rest ih =>
    by_cases hp : (p.1 == k) = true
    · simp [hasKey, hp]
    · simp only [Bool.not_eq_true] at hp
      simp only [getKey, hp, Bool.false_eq_true, if_false] at h
      simp [hasKey, hp, ih h]

theorem loadHook_owned_found (env : PluginEnv) (m : CssMap) (id css : Str)
    (hown : resolveId id = some id)
    (hget : getKey m (extractFileScopeId env.command id) = some css) :
    loadHook env m id =
      if env.server then
        .jsModule
          { fileScopeId := extractFileScopeId env.command id
            immediateInjects := [css]
            hotUpdateSubscriptions :=
              [styleUpdateEvent (extractFileScopeId env.command id)] }
      else .cssText css := by
  have hguard := resolveId_guard_of_owned id hown
  have hhas := hasKey_of_getKey _ _ _ hget
  unfold loadHook
  simp only [hguard, if_true, hhas, hget, Bool.not_true, Bool.false_eq_true, if_false,
    Option.getD_some]
  cases env.server <;> simp

/-! ## Claim theorems -/

/-- C7: for every module id string, `resolveId` returns the id unchanged if
and only if the id starts with the reserved prefix
`virtual:vanilla-extract:`; for every other id it is not handled
(`undefined`, here `none`). -/
theorem resolveId_ownership (id : Str) :
    (resolveId id = some id ↔ virtualPrefix.isPrefixOf id = true) ∧
    (virtualPrefix.isPrefixOf id = false → resolveId id = none) := by
  rw [resolveId_eq]
  by_cases h : virtualPrefix.isPrefixOf id = true
  · simp [h]
  · simp only [Bool.not_eq_true] at h
    simp [h]

/-- C5 counterexample: the claim's exact textual format is wrong already for
the scope `x` in dev mode — the emitted id carries the extension
`.vanilla.js`, not the claimed bare `.js`. -/
theorem virtualId_bare_ext_counterexample :
    mkVirtualId .serve ("x".data) ≠ virtualPrefix ++ "x".data ++ ".js".data := by
  decide

/-- C5 (amended): the virtual module identifier emitted for every scope has
the exact textual format `virtual:vanilla-extract:<FlatScopeId><ext>`, where
`ext` is `.vanilla.js` when the resolved command is `serve` (a dev server)
and `.vanilla.css` otherwise, fixed once per process at
configuration-resolution time as the pure function `virtualExt` of the
resolved command; emission and recognition use the identical text, so
`resolveId` claims every emitted id. -/
theorem virtualId_format (cmd : Command) (fileId : Str) :
    mkVirtualId cmd fileId = virtualPrefix ++ fileId ++ virtualExt cmd ∧
    virtualExt .serve = ".vanilla.js".data ∧
    virtualExt .build = ".vanilla.css".data ∧
    resolveId (mkVirtualId cmd fileId) = some (mkVirtualId cmd fileId) := by
  refine ⟨rfl, by decide, by decide, ?_⟩
  rw [resolveId_eq]
  have h : virtualPrefix.isPrefixOf (mkVirtualId cmd fileId) = true :=
    isPrefixOf_append_self _ _
  simp [h]

/-- C3: `load` on an id it owns whose extracted FlatScopeId has no entry in
the CSS registry throws the lookup error, surfaced to the caller; it never
silently returns `undefined` (`null`) or raw content for an unregistered
scope. -/
theorem load_unregistered_throws (env : PluginEnv) (m : CssMap) (id : Str)
    (hown : resolveId id = some id)
    (habs : hasKey m (extractFileScopeId env.command id) = false) :
    loadHook env m id =
      .thrown ("Unable to locate ".data ++ extractFileScopeId env.command id
        ++ " in the CSS map.".data) ∧
    loadHook env m id ≠ .nullResult ∧
    (∀ css, loadHook env m id ≠ .cssText css) ∧
    (∀ shim, loadHook env m id ≠ .jsModule shim) := by
  have hguard := resolveId_guard_of_owned id hown
  have hthrown : loadHook env m id =
      .thrown ("Unable to locate ".data ++ extractFileScopeId env.command id
        ++ " in the CSS map.".data) := by
    unfold loadHook
    simp [hguard, habs]
  refine ⟨hthrown, ?_, ?_, ?_⟩ <;> simp [hthrown]

/-- C3 witness: a concrete owned id over an empty registry throws. -/
theorem load_unregistered_throws_witness :
    loadHook ⟨false, .build, [], fun _ => true⟩ []
      ("virtual:vanilla-extract:a.vanilla.css".data)
      = .thrown ("Unable to locate a in the CSS map.".data) := by
  have h := load_unregistered_throws ⟨false, .build, [], fun _ => true⟩ []
    ("virtual:vanilla-extract:a.vanilla.css".data) (by decide) (by decide)
  exact h.1.trans (by decide)

/-- C2: for an id owned by the resolver whose FlatScopeId is registered,
`load` returns exactly the raw stored CSS text when no dev server is
attached, and with one attached a JS module with exactly one immediate
`inject` of the current CSS and exactly one subscription to the scope's
hot-update channel (whose handler re-invokes `inject` on each payload). -/
theorem load_dev_build_divergence (env : PluginEnv) (m : CssMap) (id css : Str)
    (hown : resolveId id = some id)
    (hget : getKey m (extractFileScopeId env.command id) = some css) :
    (env.server = false → loadHook env m id = .cssText css) ∧
    (env.server = true →
      loadHook env m id = .jsModule
        { fileScopeId := extractFileScopeId env.command id
          immediateInjects := [css]
          hotUpdateSubscriptions :=
            [styleUpdateEvent (extractFileScopeId env.command id)] }) := by
  have h := loadHook_owned_found env m id css hown hget
  constructor <;> intro hs <;> rw [hs] at h <;> simpa using h

/-- C2 witness: a concrete build-mode load returns the raw stored CSS. -/
theorem load_dev_build_divergence_witness :
    loadHook ⟨false, .build, [], fun _ => true⟩ [("a".data, "b".data)]
      ("virtual:vanilla-extract:a.vanilla.css".data) = .cssText ("b".data) := by
  have h := load_dev_build_divergence ⟨false, .build, [], fun _ => true⟩
    [("a".data, "b".data)] ("virtual:vanilla-extract:a.vanilla.css".data)
    ("b".data) (by decide) (by decide)
  exact h.1 rfl

/-- C6: every hot-update broadcast fired for a changed scope `f` is the
custom event named `vanilla-extract-style-update:<f>` with the new raw CSS
text as payload, and the dev-mode injection shim returned by `load`
subscribes to exactly that event name for its scope. -/
theorem hmr_event_channel (env : PluginEnv) (m : CssMap) (fileId source id css : Str)
    (hserver : env.server = true)
    (hown : resolveId id = some id)
    (hget : getKey m (extractFileScopeId env.command id) = some css) :
    (∀ e ∈ (serializeVirtualCssPath env m fileId source).broadcasts,
        e = ("vanilla-extract-style-update:".data ++ fileId, source)) ∧
    loadHook env m id = .jsModule
      { fileScopeId := extractFileScopeId env.command id
        immediateInjects := [css]
        hotUpdateSubscriptions :=
          ["vanilla-extract-style-update:".data
            ++ extractFileScopeId env.command id] } := by
  constructor
  · intro e he
    unfold serializeVirtualCssPath at he
    simp only [] at he
    split at he
    · simp only [List.mem_singleton] at he
      simpa [styleUpdateEvent] using he
    · simp at he
  · have h := loadHook_owned_found env m id css hown hget
    rw [hserver] at h
    simpa [styleUpdateEvent] using h

/-- C6 witness: a concrete dev-mode load subscribes to the scope's channel. -/
theorem hmr_event_channel_witness :
    loadHook ⟨true, .serve, [], fun _ => true⟩ [("a".data, "b".data)]
      ("virtual:vanilla-extract:a.vanilla.js".data)
      = .jsModule ⟨"a".data, ["b".data], ["vanilla-extract-style-update:a".data]⟩ := by
  have h := hmr_event_channel ⟨true, .serve, [], fun _ => true⟩
    [("a".data, "b".data)] ("f".data) ("c".data)
    ("virtual:vanilla-extract:a.vanilla.js".data) ("b".data)
    rfl (by decide) (by decide)
  exact h.2.trans (by decide)

theorem serialize_out_eq (env : PluginEnv) (m : CssMap) (fileId source : Str) :
    serializeVirtualCssPath env m fileId source =
      { cssMap := setKey m fileId source
        invalidations :=
          if (env.server && hasKey m fileId && !(getKey m fileId == some source))
              && env.moduleGraph.contains (mkVirtualId env.command fileId) then
            [mkVirtualId env.command fileId]
          else []
        broadcasts :=
          if env.server && hasKey m fileId && !(getKey m fileId == some source) then
            [(styleUpdateEvent fileId, source)]
          else []
        importStmt := importStatementFor (mkVirtualId env.command fileId) } := rfl

theorem fire_cond_iff (env : PluginEnv) (m : CssMap) (fileId source : Str) :
    (env.server && hasKey m fileId && !(getKey m fileId == some source)) = true
      ↔ env.server = true ∧ hasKey m fileId = true
          ∧ getKey m fileId ≠ some source := by
  simp [and_assoc]

/-- C1: for each CSS fragment with FlatScopeId `f` handed to the
finalization callback, the hot-update broadcast carrying the new CSS fires
exactly once if and only if a dev server is attached and the registry
already holds an entry for `f` whose CSS text differs from the new fragment;
the module-graph invalidation fires exactly once iff additionally the module
graph caches the scope's virtual id; on a first registration of `f`, or when
the stored CSS equals the new text, neither action fires. -/
theorem serialize_change_detection (env : PluginEnv) (m : CssMap) (fileId source : Str) :
    ((serializeVirtualCssPath env m fileId source).broadcasts
        = [(styleUpdateEvent fileId, source)]
      ↔ env.server = true ∧ hasKey m fileId = true
          ∧ getKey m fileId ≠ some source) ∧
    ((serializeVirtualCssPath env m fileId source).invalidations
        = [mkVirtualId env.command fileId]
      ↔ (env.server = true ∧ hasKey m fileId = true
          ∧ getKey m fileId ≠ some source)
        ∧ env.moduleGraph.contains (mkVirtualId env.command fileId) = true) ∧
    (¬ (env.server = true ∧ hasKey m fileId = true
          ∧ getKey m fileId ≠ some source) →
      (serializeVirtualCssPath env m fileId source).broadcasts = []
        ∧ (serializeVirtualCssPath env m fileId source).invalidations = []) := by
  rw [serialize_out_eq]
  by_cases hfire : (env.server && hasKey m fileId
      && !(getKey m fileId == some source)) = true
  · by_cases hc : env.moduleGraph.contains (mkVirtualId env.command fileId) = true
    · simp [hfire, hc, (fire_cond_iff env m fileId source).mp hfire]
    · simp only [Bool.not_eq_true] at hc
      simp [hfire, hc, (fire_cond_iff env m fileId source).mp hfire]
  · have hcond : ¬ (env.server = true ∧ hasKey m fileId = true
        ∧ getKey m fileId ≠ some source) := fun hco =>
      hfire ((fire_cond_iff env m fileId source).mpr hco)
    simp only [Bool.not_eq_true] at hfire
    simp [hfire, hcond]

/-- C9: a transform input whose id does not match the style-file filter
returns `null` and leaves the CSS registry, the watch registrations and the
HMR side effects untouched. -/
theorem transform_non_style_frame (env : PluginEnv) (m : CssMap) (id : Str)
    (ssr : Bool) (watchFiles : List Str) (fragments : List (Str × Str))
    (hfilter : env.cssFileFilterTest id = false) :
    transformHook env m id ssr watchFiles fragments =
      { result := .nullResult, cssMap := m, watched := [],
        invalidations := [], broadcasts := [] } := by
  unfold transformHook
  simp [hfilter]

/-- C9 witness: a concrete non-style transform is a no-op returning null. -/
theorem transform_non_style_frame_witness :
    transformHook ⟨false, .build, [], fun _ => false⟩ [("k".data, "v".data)]
      ("src/app.ts".data) false ["w".data] [("f".data, "c".data)]
      = { result := .nullResult, cssMap := [("k".data, "v".data)], watched := [],
          invalidations := [], broadcasts := [] } :=
  transform_non_style_frame ⟨false, .build, [], fun _ => false⟩
    [("k".data, "v".data)] ("src/app.ts".data) false ["w".data]
    [("f".data, "c".data)] rfl

/-- C4: in a client-context transform of a style file, each path the
compiler reports is registered as a watch target, except that under the
`serve` command the currently-transformed file itself is never registered as
its own watch target, while under `build` every reported path is registered
unconditionally. -/
theorem transform_watch_registration (env : PluginEnv) (m : CssMap) (id : Str)
    (watchFiles : List Str) (fragments : List (Str × Str))
    (hfilter : env.cssFileFilterTest id = true) :
    (transformHook env m id false watchFiles fragments).watched
        = watchFiles.filter (fun file => env.command == .build || file != id) ∧
    (env.command = .serve →
      id ∉ (transformHook env m id false watchFiles fragments).watched) ∧
    (env.command = .build →
      (transformHook env m id false watchFiles fragments).watched = watchFiles) ∧
    (∀ file ∈ watchFiles, file ≠ id →
      file ∈ (transformHook env m id false watchFiles fragments).watched) := by
  have heq : (transformHook env m id false watchFiles fragments).watched
      = watchFiles.filter (fun file => env.command == .build || file != id) := by
    unfold transformHook
    simp [hfilter]
  refine ⟨heq, ?_, ?_, ?_⟩
  · intro hc
    rw [heq]
    intro hmem
    have h := List.mem_filter.mp hmem
    rw [hc] at h
    simp at h
  · intro hc
    rw [heq, hc]
    simp
  · intro file hmem hne
    rw [heq]
    exact List.mem_filter.mpr ⟨hmem, by simp [hne]⟩

/-- C4 witness: under `serve`, a concrete dependency is watched while the
transformed file itself is not. -/
theorem transform_watch_registration_witness :
    ("dep.ts".data ∈ (transformHook ⟨true, .serve, [], fun _ => true⟩ []
        ("src/a.css.ts".data) false ["src/a.css.ts".data, "dep.ts".data] []).watched)
    ∧ ("src/a.css.ts".data ∉ (transformHook ⟨true, .serve, [], fun _ => true⟩ []
        ("src/a.css.ts".data) false ["src/a.css.ts".data, "dep.ts".data] []).watched) := by
  have h := transform_watch_registration ⟨true, .serve, [], fun _ => true⟩ []
    ("src/a.css.ts".data) ["src/a.css.ts".data, "dep.ts".data] [] rfl
  exact ⟨h.2.2.2 _ (by decide) (by decide), h.2.1 rfl⟩

theorem getKey_setKey_self (m : CssMap) (k v : Str) :
    getKey (setKey m k v) k = some v := by
  induction m with
  | nil => simp [setKey, getKey]
  | cons p rest ih =>
    by_cases hp : (p.1 == k) = true
    · simp [setKey, getKey, hp, ih]
    · simp only [Bool.not_eq_true] at hp
      simp [setKey, getKey, hp, ih]

theorem hasKey_setKey_self (m : CssMap) (k v : Str) :
    hasKey (setKey m k v) k = true :=
  hasKey_of_getKey _ _ _ (getKey_setKey_self m k v)

theorem hasKey_setKey_of_hasKey (m : CssMap) (k v q : Str)
    (h : hasKey m q = true) : hasKey (setKey m k v) q = true := by
  induction m with
  | nil => simp [hasKey] at h
  | cons p rest ih =>
    simp only [hasKey, Bool.or_eq_true, beq_iff_eq] at h
    by_cases hp : (p.1 == k) = true
    · simp only [setKey, hp, if_true, hasKey, Bool.or_eq_true, beq_iff_eq]
      rcases h with h1 | h2
      · left
        rw [← h1]
        exact (beq_iff_eq.mp hp).symm
      · right
        exact ih h2
    · simp only [Bool.not_eq_true] at hp
      simp only [setKey, hp, Bool.false_eq_true, if_false, hasKey,
        Bool.or_eq_true, beq_iff_eq]
      rcases h with h1 | h2
      · left; exact h1
      · right; exact ih h2

theorem serialize_cssMap_eq (env : PluginEnv) (m : CssMap) (fileId source : Str) :
    (serializeVirtualCssPath env m fileId source).cssMap = setKey m fileId source := rfl

theorem runSerializeAll_hasKey_mono (env : PluginEnv)
    (frags : List (Str × Str)) (m : CssMap) (k : Str) (h : hasKey m k = true) :
    hasKey (runSerializeAll env m frags).cssMap k = true := by
  induction frags generalizing m with
  | nil => simpa [runSerializeAll] using h
  | cons p rest ih =>
    obtain ⟨f, s⟩ := p
    simp only [runSerializeAll]
    exact ih _ (by
      rw [serialize_cssMap_eq]
      exact hasKey_setKey_of_hasKey m f s k h)

theorem runSerializeAll_hasKey_frag (env : PluginEnv)
    (frags : List (Str × Str)) (m : CssMap) (p : Str × Str) (hp : p ∈ frags) :
    hasKey (runSerializeAll env m frags).cssMap p.1 = true := by
  induction frags generalizing m with
  | nil => simp at hp
  | cons q rest ih =>
    obtain ⟨f, s⟩ := q
    rcases List.mem_cons.mp hp with h1 | h2
    · rw [h1]
      simp only [runSerializeAll]
      exact runSerializeAll_hasKey_mono env rest _ _ (by
        rw [serialize_cssMap_eq]
        exact hasKey_setKey_self m f s)
    · simp only [runSerializeAll]
      exact ih _ h2

theorem transformHook_cssMap_mono (env : PluginEnv) (m : CssMap) (id : Str)
    (ssr : Bool) (watchFiles : List Str) (fragments : List (Str × Str))
    (k : Str) (h : hasKey m k = true) :
    hasKey (transformHook env m id ssr watchFiles fragments).cssMap k = true := by
  unfold transformHook
  by_cases hf : env.cssFileFilterTest id = true
  · cases ssr
    · simp only [hf, Bool.not_true, Bool.false_eq_true, if_false, Bool.false_eq_true,
        if_false]
      exact runSerializeAll_hasKey_mono env fragments m k h
    · simpa [hf] using h
  · simp only [Bool.not_eq_true] at hf
    simpa [hf] using h

/-- C8: the CSS registry is monotone over the plugin's lifetime: each
callback invocation of a successful compile unconditionally overwrites its
scope's entry via `set`, and `transform` — the only hook that writes the
registry, `resolveId` and `load` being pure readers of it in this embedding —
never deletes an entry, so the set of registered FlatScopeIds only grows and
after finalization every compiled fragment's FlatScopeId is registered. -/
theorem cssMap_monotone (env : PluginEnv) (m : CssMap) (fileId source id : Str)
    (ssr : Bool) (watchFiles : List Str) (fragments : List (Str × Str)) :
    (serializeVirtualCssPath env m fileId source).cssMap = setKey m fileId source ∧
    getKey (setKey m fileId source) fileId = some source ∧
    (∀ k, hasKey m k = true → hasKey (setKey m fileId source) k = true) ∧
    (∀ k, hasKey m k = true →
      hasKey (transformHook env m id ssr watchFiles fragments).cssMap k = true) ∧
    (∀ p ∈ fragments, hasKey (runSerializeAll env m fragments).cssMap p.1 = true) :=
  ⟨serialize_cssMap_eq env m fileId source,
    getKey_setKey_self m fileId source,
    fun k hk => hasKey_setKey_of_hasKey m fileId source k hk,
    fun k hk => transformHook_cssMap_mono env m id ssr watchFiles fragments k hk,
    fun p hp => runSerializeAll_hasKey_frag env fragments m p hp⟩

theorem virtualExt_head (cmd : Command) : ∃ tl, virtualExt cmd = '.' :: tl := by
  cases cmd
  · exact ⟨"vanilla.js".data, by decide⟩
  · exact ⟨"vanilla.css".data, by decide⟩

theorem firstOcc_append_shift (pat rest : Str) (c0 : Char) (tl : Str)
    (hpat : pat = c0 :: tl) :
    ∀ pre : Str, c0 ∉ pre →
      firstOcc pat (pre ++ rest) = (firstOcc pat rest).map (· + pre.length) := by
  intro pre
  induction pre with
  | nil =>
    intro _
    cases h : firstOcc pat rest <;> simp [h]
  | cons c pr ih =>
    intro hpre
    have hc : ¬(c0 = c) := fun h => hpre (by rw [h]; exact List.mem_cons_self c pr)
    have hpre2 : c0 ∉ pr := fun h => hpre (List.mem_cons_of_mem c h)
    have hnp : pat.isPrefixOf (c :: (pr ++ rest)) = false := by
      rw [hpat]
      simp [List.isPrefixOf, beq_eq_false_iff_ne.mpr hc]
    have step : firstOcc pat ((c :: pr) ++ rest)
        = (firstOcc pat (pr ++ rest)).map (· + 1) := by
      rw [List.cons_append]
      simp [firstOcc, hnp]
    rw [step, ih hpre2]
    cases firstOcc pat rest <;> simp [Nat.add_assoc]

/-- C10: for every id starting with the virtual prefix, `load` extracts the
FlatScopeId as the substring between the end of the prefix and the first
occurrence of the configured virtual extension anywhere in the id (the first
conjunct places that occurrence: it is the extension's first occurrence in
the remainder, shifted past the dot-free prefix); when the extension does
not occur in the id at all, the extracted FlatScopeId is the remainder of
the id with its final character removed (JavaScript slice end index `-1`). -/
theorem extract_scope_id_spec (cmd : Command) (rest : Str) :
    firstOcc (virtualExt cmd) ( virtualPrefix ++ rest)
        = (firstOcc (virtualExt cmd) rest).map (· + virtualPrefix.length) ∧
    extractFileScopeId cmd ( virtualPrefix ++ rest)
        = (match firstOcc (virtualExt cmd) rest with
            | some n => rest.take n
            | none => rest.dropLast) := by
  obtain ⟨tl, htl⟩ := virtualExt_head cmd
  have hdot : ('.' : Char) ∉ virtualPrefix := by decide
  have hshift := firstOcc_append_shift (virtualExt cmd) rest '.' tl htl
    virtualPrefix hdot
  refine ⟨hshift, ?_⟩
  have hlen : ( virtualPrefix ++ rest).length
      = virtualPrefix.length + rest.length := by simp
  unfold extractFileScopeId jsIndexOf
  rw [hshift]
  cases h : firstOcc (virtualExt cmd) rest with
  | none =>
    simp only [h, Option.map_none']
    unfold jsSlice jsNormIdx
    have h1 : ((-1 : Int) < 0) = True := by norm_num
    have h2 : ((( virtualPrefix ++ rest).length : Int) + (-1)).toNat
        = ( virtualPrefix ++ rest).length - 1 := by omega
    have h3 : ¬((virtualPrefix.length : Int) < 0) := by omega
    have h4 : min (virtualPrefix.length : Int).toNat ( virtualPrefix ++ rest).length
        = virtualPrefix.length := by
      rw [Int.toNat_natCast, hlen]
      omega
    simp only [h1, if_true, h2, h3, if_false, h4]
    rw [← List.dropLast_eq_take]
    cases rest with
    | nil => decide
    | cons r rs =>
      rw [List.dropLast_append_cons]
      exact List.drop_left _ _
  | some n =>
    simp only [h, Option.map_some']
    unfold jsSlice jsNormIdx
    have e1 : ¬((virtualPrefix.length : Int) < 0) := by omega
    have e2 : ¬(((n + virtualPrefix.length : Nat) : Int) < 0) := by omega
    have e0 : min virtualPrefix.length ( virtualPrefix ++ rest).length
        = virtualPrefix.length := by
      rw [hlen]; omega
    simp only [e1, e2, if_false, Int.toNat_natCast, e0]
    have e3 : ( virtualPrefix ++ rest).take
          (min (n + virtualPrefix.length) ( virtualPrefix ++ rest).length)
        = ( virtualPrefix ++ rest).take (n + virtualPrefix.length) :=
      List.take_eq_take.mpr (by rw [hlen]; omega)
    rw [e3, List.take_append_eq_append_take,
      List.take_of_length_le (by omega : virtualPrefix.length
        ≤ n + virtualPrefix.length),
      Nat.add_sub_cancel]
    exact List.drop_left _ _

end VanillaExtract
